import Mathlib

/-!
Shallow embedding of the `old_quantum` kernel bring-up layer:
the PL011 UART driver (register layout, init, write_char, read_char,
statistics), the driver manager loop in `kernel_init`, the panic path,
the AArch64 entry point `_start`, and the runtime bootstrap.

Hardware-driven register reads (the Flag Register, and the Data Register
on receive) are modelled by explicit oracles: a list of values the
hardware would return on successive reads.  Busy-wait loops consume the
oracle; an exhausted oracle models a loop that is still waiting, so the
corresponding operation returns `none` (the real loop would still be
spinning).  Register writes are recorded in an event trace so that
ordering properties of memory-mapped I/O can be stated.
-/

namespace OldQuantum

/-- A memory-mapped I/O event of the UART driver: a read of the Flag
Register or Data Register returning the given 32-bit value, or a write
of a 32-bit value to one of the writable registers. -/
inductive Event where
  | readFR (v : Nat)
  | readDR (v : Nat)
  | writeDR (v : Nat)
  | writeIBRD (v : Nat)
  | writeFBRD (v : Nat)
  | writeLCRH (v : Nat)
  | writeCR (v : Nat)
  | writeICR (v : Nat)
  deriving DecidableEq, Repr

/-- The writable registers of the PL011 register block (the Flag
Register is read-only and hardware-driven, so it is not state here). -/
structure UartRegs where
  DR : Nat
  IBRD : Nat
  FBRD : Nat
  LCRH : Nat
  CR : Nat
  ICR : Nat
  deriving DecidableEq, Repr

/-- `PL011UartInner`: base address, the writable register block it
points at, and the two statistics counters. -/
structure PL011UartInner where
  base_addr : Nat
  regs : UartRegs
  chars_written : Nat
  chars_read : Nat
  deriving DecidableEq, Repr

/-- `PL011UartInner::new(base_addr)`: both counters start at zero.  The
hardware register block contents at reset are unknown, so the
constructor is parametrised by them. -/
def PL011UartInner.new (base_addr : Nat) (regs : UartRegs) : PL011UartInner :=
  { base_addr := base_addr, regs := regs, chars_written := 0, chars_read := 0 }

/-- `register_bitfields!` field semantics: `F.val(v)` masks `v` to the
field's width and shifts it to the field's offset. -/
def fieldVal (offset numbits v : Nat) : Nat :=
  (v % 2 ^ numbits) <<< offset

/-- Flag Register bit offsets: TXFE at 7, TXFF at 5, RXFE at 4. -/
def FR.TXFE_OFFSET : Nat := 7
def FR.TXFF_OFFSET : Nat := 5
def FR.RXFE_OFFSET : Nat := 4

/-- `FR::TXFF` is a one-bit field; `matches_all (FR::TXFF::SET)` tests it. -/
def txffSet (fr : Nat) : Bool := fr.testBit FR.TXFF_OFFSET

/-- `FR::RXFE` is a one-bit field; `matches_all (FR::RXFE::SET)` tests it. -/
def rxfeSet (fr : Nat) : Bool := fr.testBit FR.RXFE_OFFSET

/-- Apply a write event to the register block state. -/
def applyWrite (r : UartRegs) : Event → UartRegs
  | Event.writeDR v => { r with DR := v }
  | Event.writeIBRD v => { r with IBRD := v }
  | Event.writeFBRD v => { r with FBRD := v }
  | Event.writeLCRH v => { r with LCRH := v }
  | Event.writeCR v => { r with CR := v }
  | Event.writeICR v => { r with ICR := v }
  | _ => r

/-- The six register writes of `PL011UartInner::init`, in program order:
`CR.set(0)`; `ICR.write(ICR::ALL::CLEAR)`; `IBRD.write(IBRD::IBRD.val(13))`;
`FBRD.write(FBRD::FBRD.val(2))`;
`LCRH.write(LCRH::WLEN::EightBit + LCRH::FEN::FifosEnabled)`;
`CR.write(CR::UARTEN::Enabled + CR::TXE::Enabled + CR::RXE::Enabled)`. -/
def initEvents : List Event :=
  [ Event.writeCR 0,
    Event.writeICR (fieldVal 0 11 0),
    Event.writeIBRD (fieldVal 0 16 13),
    Event.writeFBRD (fieldVal 0 6 2),
    Event.writeLCRH (fieldVal 5 2 0b11 + fieldVal 4 1 1),
    Event.writeCR (fieldVal 9 1 1 + fieldVal 8 1 1 + fieldVal 0 1 1) ]

/-- `PL011UartInner::init`: perform the six writes in order, returning
the new driver state and the event trace. -/
def PL011UartInner.init (st : PL011UartInner) : PL011UartInner × List Event :=
  ({ st with regs := initEvents.foldl applyWrite st.regs }, initEvents)

/-- A busy-wait loop `while self.FR.matches_all(BIT::SET) { cpu::nop(); }`:
each iteration reads FR once from the oracle and loops while `bitSet`
holds of the value read.  Returns the trace of FR reads performed (the
last one observed the bit clear) and the unconsumed oracle; `none` if
the oracle ran out while the bit was still set (the real loop would
still be spinning). -/
def pollWhile (bitSet : Nat → Bool) : List Nat → Option (List Event × List Nat)
  | [] => none
  | fr :: rest =>
    if bitSet fr then
      match pollWhile bitSet rest with
      | none => none
      | some (evs, rem) => some (Event.readFR fr :: evs, rem)
    else
      some ([Event.readFR fr], rest)

/-- The busy-wait loop of `write_char`, polling `FR::TXFF`. -/
def pollTxff : List Nat → Option (List Event × List Nat) :=
  pollWhile txffSet

/-- `PL011UartInner::write_char`: busy-wait until TXFF is observed
clear, then `self.DR.set(c as u32)` and `self.chars_written += 1`. -/
def PL011UartInner.write_char (st : PL011UartInner) (c : Char) (frs : List Nat) :
    Option (PL011UartInner × List Event × List Nat) :=
  match pollTxff frs with
  | none => none
  | some (evs, rem) =>
    some ({ st with regs := { st.regs with DR := c.toNat },
                    chars_written := st.chars_written + 1 },
          evs ++ [Event.writeDR c.toNat], rem)

/-- A sequence of `write_char` calls, one per character, threading the
driver state and the FR oracle, accumulating the event trace. -/
def writeChars (st : PL011UartInner) (cs : List Char) (frs : List Nat) :
    Option (PL011UartInner × List Event × List Nat) :=
  match cs with
  | [] => some (st, [], frs)
  | c :: cs' =>
    match st.write_char c frs with
    | none => none
    | some (st1, evs1, rem1) =>
      match writeChars st1 cs' rem1 with
      | none => none
      | some (st2, evs2, rem2) => some (st2, evs1 ++ evs2, rem2)

/-- Is this event a Data Register store? -/
def isWriteDR : Event → Bool
  | Event.writeDR _ => true
  | _ => false

/-- "TXFF observed clear" of an FR value. -/
def txffClear (f : Nat) : Bool := !txffSet f

/-- "RXFE observed clear" of an FR value. -/
def rxfeClear (f : Nat) : Bool := !rxfeSet f

/-- Checker for the busy-wait protocol on a trace: every event
satisfying `isAct` (a Data Register access) must be immediately
preceded by a Flag Register read whose value satisfies `ok` (the
polled bit observed clear).  `prev` carries the value of the
immediately preceding event when that event was an FR read. -/
def guardedAux (isAct : Event → Bool) (ok : Nat → Bool) :
    Option Nat → List Event → Bool
  | _, [] => true
  | prev, e :: rest =>
    if isAct e then
      (match prev with
       | some f => ok f
       | none => false) && guardedAux isAct ok none rest
    else
      match e with
      | Event.readFR f => guardedAux isAct ok (some f) rest
      | _ => guardedAux isAct ok none rest

/-- Positional statement of the busy-wait protocol: any `isAct` event
at position `i` of the trace has, immediately before it, an FR read
whose value satisfies `ok`. -/
def GuardedAt (isAct : Event → Bool) (ok : Nat → Bool) (evs : List Event) : Prop :=
  ∀ i e, evs[i]? = some e → isAct e = true →
    ∃ j f, i = j + 1 ∧ evs[j]? = some (Event.readFR f) ∧ ok f = true

/-- The busy-wait loop of `read_char`, polling `FR::RXFE`. -/
def pollRxfe : List Nat → Option (List Event × List Nat) :=
  pollWhile rxfeSet

/-- `inner.DR.get() as u8 as char`: the 32-bit Data Register value
truncated to its low byte, then widened to a character. -/
def drByteChar (dr : Nat) : Char := Char.ofNat (dr % 256)

/-- `console::interface::Read::read_char` for `PL011Uart` (body of the
locked closure): busy-wait until RXFE is observed clear, read the Data
Register, translate a carriage return to a newline, increment
`chars_read`, and return the character.  `frs` is the FR oracle and
`dr` the value the hardware presents in the Data Register. -/
def read_char (st : PL011UartInner) (frs : List Nat) (dr : Nat) :
    Option (PL011UartInner × Char × List Event × List Nat) :=
  match pollRxfe frs with
  | none => none
  | some (evs, rem) =>
    some ({ st with chars_read := st.chars_read + 1 },
          if drByteChar dr = '\r' then '\n' else drByteChar dr,
          evs ++ [Event.readDR dr], rem)

/-- A sequence of `read_char` calls; each call gets its own FR oracle
and hardware Data Register value.  Returns the final state, the list of
characters returned, and the full event trace. -/
def readChars (st : PL011UartInner) : List (List Nat × Nat) →
    Option (PL011UartInner × List Char × List Event)
  | [] => some (st, [], [])
  | (frs, dr) :: rest =>
    match read_char st frs dr with
    | none => none
    | some (st1, c, evs1, _) =>
      match readChars st1 rest with
      | none => none
      | some (st2, cs, evs2) => some (st2, c :: cs, evs1 ++ evs2)

/-- Is this event a Data Register read? -/
def isReadDR : Event → Bool
  | Event.readDR _ => true
  | _ => false

/-- `fmt::Result` as returned by `write_str` / `write_fmt`. -/
inductive FmtResult where
  | ok
  | error
  deriving DecidableEq, Repr

/-- `fmt::Write::write_str` for `PL011UartInner`: write every character
of the string through `write_char`, then return `Ok(())`. -/
def write_str (st : PL011UartInner) (s : String) (frs : List Nat) :
    Option (PL011UartInner × FmtResult × List Event × List Nat) :=
  match writeChars st s.data frs with
  | none => none
  | some (st', evs, rem) => some (st', FmtResult.ok, evs, rem)

/-- `Result::unwrap` on a `fmt::Result`, as used in `_panic_print`:
`none` models a nested panic out of the unwrap. -/
def unwrapFmt : FmtResult → Option Unit
  | FmtResult.ok => some ()
  | FmtResult.error => none

/-! ## Driver manager and kernel_init -/

/-- A device driver as seen by `kernel_init`: its `compatible()` name
and the outcome of its `init()` (`Result<(), ()>`, modelled as a flag
that is `true` exactly when `init` returns `Ok`). -/
structure Driver where
  compatible : String
  initOk : Bool
  deriving DecidableEq, Repr

/-- What `kernel_init`'s driver loop ends in: either the panic path ran
with the given formatted message, or every `init` succeeded and
`post_device_driver_init` ran (followed by `kernel_main`). -/
inductive KernelOutcome where
  | panicked (fatalMessage : String)
  | postInitRan
  deriving DecidableEq, Repr

/-- The panic handler: `panic!` carries a message, so `info.message()`
is available and the handler emits `"\nFatal error: {args}"` followed by
the newline appended by `format_args_nl!`, then parks the core. -/
def panicMessage (args : String) : String :=
  "\nFatal error: " ++ args ++ "\n"

/-- The driver loop of `kernel_init`: call `init` on each driver in
table order; on the first failure, `panic!("Error loading driver: {}",
i.compatible())`; if all succeed, run `post_device_driver_init`. -/
def kernel_init : List Driver → KernelOutcome
  | [] => KernelOutcome.postInitRan
  | d :: ds =>
    if d.initOk then kernel_init ds
    else KernelOutcome.panicked (panicMessage ("Error loading driver: " ++ d.compatible))

/-- The first driver of the table whose `init` fails, if any: the one
whose failure `kernel_init`'s sequential loop reports. -/
def firstFailure : List Driver → Option Driver
  | [] => none
  | d :: ds => if d.initOk then firstFailure ds else some d

/-! ## Processor entry point -/

/-- What `_start` does, observed at the architectural level: either set
the stack pointer to the given address and jump to `runtime_init`
(never returning), or park the core in the `wfe` loop of
`wait_forever` (never returning, touching neither the stack pointer nor
the bootstrap). -/
inductive BootAction where
  | bootCore (sp : Nat)
  | park
  deriving DecidableEq, Repr

/-- `_start`: compare the executing core's identifier with
`BOOT_CORE_ID`; on a match set `SP` to `BOOT_CORE_STACK_START` and call
`runtime_init`, otherwise `wait_forever()`.  The two constants live in
the board-support crate, so the function is parametrised by them. -/
def start (bootCoreId bootCoreStackStart coreId : Nat) : BootAction :=
  if bootCoreId = coreId then BootAction.bootCore bootCoreStackStart
  else BootAction.park

/-! ## Runtime bootstrap -/

/-- Modelled from the spec: `memory::zero_volatile` (the file
`memory.rs` is not part of the provided sources).  "Write zero to every
memory cell in that half-open range using non-elidable (volatile)
stores": memory is a map from cell address to value, and every cell in
`[first, last)` becomes zero while every other cell keeps its value. -/
def zero_volatile (first last : Nat) (mem : Nat → Nat) : Nat → Nat :=
  fun a => if first ≤ a ∧ a < last then 0 else mem a

/-- `zero_bss`: `zero_volatile(bss_range())` over the linker-provided
half-open range `[__bss_start, __bss_end)`. -/
def zero_bss (bssStart bssEnd : Nat) (mem : Nat → Nat) : Nat → Nat :=
  zero_volatile bssStart bssEnd mem

/-- Control transfer at the end of `runtime_init`: it calls
`crate::kernel_init()` and never returns. -/
inductive NextStage where
  | toKernelInit
  deriving DecidableEq, Repr

/-- `runtime_init`: zero the bss segment, then transfer control to
kernel initialization. -/
def runtime_init (bssStart bssEnd : Nat) (mem : Nat → Nat) :
    (Nat → Nat) × NextStage :=
  (zero_bss bssStart bssEnd mem, NextStage.toKernelInit)

/-! ## Register block layout -/

/-- A named 32-bit register at a byte offset inside the PL011 register
block. -/
structure RegField where
  name : String
  offset : Nat
  deriving DecidableEq, Repr

/-- The `register_structs!` layout of the PL011 `RegisterBlock`: the
declared (non-reserved) registers and their byte offsets. -/
def registerBlock : List RegField :=
  [ { name := "DR", offset := 0x00 },
    { name := "FR", offset := 0x18 },
    { name := "IBRD", offset := 0x24 },
    { name := "FBRD", offset := 0x28 },
    { name := "LCRH", offset := 0x2c },
    { name := "CR", offset := 0x30 },
    { name := "ICR", offset := 0x44 } ]

/-- The reserved byte ranges of the layout (half-open), from the
`_reserved1`/`_reserved2`/`_reserved3` paddings: `[0x04, 0x18)`,
`[0x1c, 0x24)`, `[0x34, 0x44)`. -/
def reservedRanges : List (Nat × Nat) :=
  [(0x04, 0x18), (0x1c, 0x24), (0x34, 0x44)]

/-- The byte offset of the register an event accesses. -/
def eventOffset : Event → Nat
  | Event.readFR _ => 0x18
  | Event.readDR _ => 0x00
  | Event.writeDR _ => 0x00
  | Event.writeIBRD _ => 0x24
  | Event.writeFBRD _ => 0x28
  | Event.writeLCRH _ => 0x2c
  | Event.writeCR _ => 0x30
  | Event.writeICR _ => 0x44

/-- Does a 32-bit access at byte offset `o` touch the byte range
`[lo, hi)`? -/
def touches (o lo hi : Nat) : Bool := decide (lo < o + 4) && decide (o < hi)

/-- A bit field declared by `register_bitfields!`: offset and width in
bits. -/
structure BitField where
  offset : Nat
  numbits : Nat
  deriving DecidableEq, Repr

def FR.TXFE : BitField := { offset := 7, numbits := 1 }
def FR.TXFF : BitField := { offset := 5, numbits := 1 }
def FR.RXFE : BitField := { offset := 4, numbits := 1 }
def IBRD.IBRD : BitField := { offset := 0, numbits := 16 }
def FBRD.FBRD : BitField := { offset := 0, numbits := 6 }
def LCRH.WLEN : BitField := { offset := 5, numbits := 2 }
def LCRH.FEN : BitField := { offset := 4, numbits := 1 }
def CR.RXE : BitField := { offset := 9, numbits := 1 }
def CR.TXE : BitField := { offset := 8, numbits := 1 }
def CR.UARTEN : BitField := { offset := 0, numbits := 1 }
def ICR.ALL : BitField := { offset := 0, numbits := 11 }

/-- An all-zero register block, used to instantiate examples. -/
def uartRegs0 : UartRegs :=
  { DR := 0, IBRD := 0, FBRD := 0, LCRH := 0, CR := 0, ICR := 0 }

/-! ## Busy-wait protocol lemmas -/

/-- The guard-state update of one `guardedAux` step. -/
def nextPrev (isAct : Event → Bool) (e : Event) : Option Nat :=
  if isAct e then none
  else
    match e with
    | Event.readFR f => some f
    | _ => none

theorem guardedAux_cons (isAct : Event → Bool) (ok : Nat → Bool)
    (prev : Option Nat) (e : Event) (rest : List Event) :
    guardedAux isAct ok prev (e :: rest) =
      if isAct e then
        ((match prev with
          | some f => ok f
          | none => false) && guardedAux isAct ok none rest)
      else guardedAux isAct ok (nextPrev isAct e) rest := by
  by_cases h : isAct e
  · simp only [guardedAux, h, if_true]
  · cases e <;> simp_all [guardedAux, nextPrev]

theorem guardedAux_spec (isAct : Event → Bool) (ok : Nat → Bool)
    (evs : List Event) : ∀ prev, guardedAux isAct ok prev evs = true →
    (∀ e, evs[0]? = some e → isAct e = true →
      ∃ f, prev = some f ∧ ok f = true) ∧
    (∀ j e, evs[j + 1]? = some e → isAct e = true →
      ∃ f, evs[j]? = some (Event.readFR f) ∧ ok f = true) := by
  induction evs with
  | nil =>
    intro prev _
    constructor
    · intro e he
      simp at he
    · intro j e he
      simp at he
  | cons a rest ih =>
    intro prev h
    rw [guardedAux_cons] at h
    by_cases ha : isAct a
    · rw [if_pos ha, Bool.and_eq_true] at h
      obtain ⟨hm, hrest⟩ := h
      constructor
      · intro e he _
        simp only [List.getElem?_cons_zero, Option.some_inj] at he
        subst he
        cases prev with
        | none => simp at hm
        | some f => exact ⟨f, rfl, hm⟩
      · intro j e he hact
        simp only [List.getElem?_cons_succ] at he
        cases j with
        | zero =>
          obtain ⟨f, hf, _⟩ := (ih none hrest).1 e he hact
          simp at hf
        | succ k =>
          obtain ⟨f, hf, hok⟩ := (ih none hrest).2 k e he hact
          exact ⟨f, by simpa [List.getElem?_cons_succ] using hf, hok⟩
    · rw [if_neg ha] at h
      constructor
      · intro e he hact
        simp only [List.getElem?_cons_zero, Option.some_inj] at he
        subst he
        exact absurd hact (by simp [ha])
      · intro j e he hact
        simp only [List.getElem?_cons_succ] at he
        cases j with
        | zero =>
          obtain ⟨f, hf, hok⟩ := (ih (nextPrev isAct a) h).1 e he hact
          cases a with
          | readFR g =>
            simp [nextPrev, ha] at hf
            refine ⟨f, ?_, hok⟩
            simp [hf]
          | _ => simp [nextPrev, ha] at hf
        | succ k =>
          obtain ⟨f, hf, hok⟩ := (ih (nextPrev isAct a) h).2 k e he hact
          exact ⟨f, by simpa [List.getElem?_cons_succ] using hf, hok⟩

theorem guardedAux_GuardedAt (isAct : Event → Bool) (ok : Nat → Bool)
    (evs : List Event) (h : guardedAux isAct ok none evs = true) :
    GuardedAt isAct ok evs := by
  intro i e he hact
  obtain ⟨h0, hs⟩ := guardedAux_spec isAct ok evs none h
  cases i with
  | zero =>
    obtain ⟨f, hf, _⟩ := h0 e he hact
    simp at hf
  | succ j =>
    obtain ⟨f, hj, hok⟩ := hs j e he hact
    exact ⟨j, f, rfl, hj, hok⟩

theorem pollWhile_guard (bitSet : Nat → Bool) (frs : List Nat) :
    ∀ evs rem, pollWhile bitSet frs = some (evs, rem) →
    ∃ f, bitSet f = false ∧
      ∀ (isAct : Event → Bool) (ok : Nat → Bool),
        (∀ v, isAct (Event.readFR v) = false) →
        ∀ prev l, guardedAux isAct ok prev (evs ++ l) =
          guardedAux isAct ok (some f) l := by
  induction frs with
  | nil =>
    intro evs rem h
    simp [pollWhile] at h
  | cons fr rest ih =>
    intro evs rem h
    by_cases hb : bitSet fr
    · rw [pollWhile, if_pos hb] at h
      cases hp : pollWhile bitSet rest with
      | none => rw [hp] at h; cases h
      | some pr =>
        obtain ⟨evs1, rem1⟩ := pr
        rw [hp] at h
        simp only [Option.some_inj, Prod.mk.injEq] at h
        obtain ⟨hevs, _⟩ := h
        obtain ⟨f, hf, hall⟩ := ih evs1 rem1 hp
        refine ⟨f, hf, ?_⟩
        intro isAct ok hra prev l
        subst hevs
        rw [List.cons_append, guardedAux_cons, if_neg (by simp [hra])]
        simpa [nextPrev, hra] using hall isAct ok hra (some fr) l
    · rw [pollWhile, if_neg hb] at h
      simp only [Option.some_inj, Prod.mk.injEq] at h
      obtain ⟨hevs, _⟩ := h
      refine ⟨fr, by simpa using hb, ?_⟩
      intro isAct ok hra prev l
      subst hevs
      rw [List.singleton_append, guardedAux_cons, if_neg (by simp [hra])]
      simp [nextPrev, hra]

theorem write_char_spec (st : PL011UartInner) (c : Char) (frs : List Nat)
    (st1 : PL011UartInner) (evs : List Event) (rem : List Nat)
    (h : st.write_char c frs = some (st1, evs, rem)) :
    st1.chars_written = st.chars_written + 1 ∧
    st1.chars_read = st.chars_read ∧
    st1.regs.DR = c.toNat ∧
    Event.writeDR c.toNat ∈ evs ∧
    ∀ prev l, guardedAux isWriteDR txffClear prev (evs ++ l) =
      guardedAux isWriteDR txffClear none l := by
  rw [PL011UartInner.write_char] at h
  cases hp : pollTxff frs with
  | none => rw [hp] at h; cases h
  | some pr =>
    obtain ⟨pevs, prem⟩ := pr
    rw [hp] at h
    simp only [Option.some_inj, Prod.mk.injEq] at h
    obtain ⟨hst, hevs, _⟩ := h
    obtain ⟨f, hf, hall⟩ := pollWhile_guard txffSet frs pevs prem hp
    subst hst
    subst hevs
    refine ⟨rfl, rfl, rfl, by simp, ?_⟩
    intro prev l
    rw [List.append_assoc, List.singleton_append,
      hall isWriteDR txffClear (fun v => rfl) prev (Event.writeDR c.toNat :: l),
      guardedAux_cons]
    simp [isWriteDR, txffClear, hf]

theorem writeChars_spec (cs : List Char) : ∀ (st : PL011UartInner)
    (frs : List Nat) (st' : PL011UartInner) (evs : List Event) (rem : List Nat),
    writeChars st cs frs = some (st', evs, rem) →
    st'.chars_written = st.chars_written + cs.length ∧
    st'.chars_read = st.chars_read ∧
    ∀ prev, guardedAux isWriteDR txffClear prev evs = true := by
  induction cs with
  | nil =>
    intro st frs st' evs rem h
    simp only [writeChars, Option.some_inj, Prod.mk.injEq] at h
    obtain ⟨h1, h2, _⟩ := h
    subst h1
    subst h2
    exact ⟨rfl, rfl, fun prev => rfl⟩
  | cons c cs ih =>
    intro st frs st' evs rem h
    rw [writeChars] at h
    cases h1 : st.write_char c frs with
    | none => simp [h1] at h
    | some r1 =>
      obtain ⟨st1, evs1, rem1⟩ := r1
      simp only [h1] at h
      cases h2 : writeChars st1 cs rem1 with
      | none => simp [h2] at h
      | some r2 =>
        obtain ⟨st2, evs2, rem2⟩ := r2
        simp only [h2] at h
        simp only [Option.some_inj, Prod.mk.injEq] at h
        obtain ⟨hst, hevs, _⟩ := h
        subst hst
        subst hevs
        obtain ⟨hw1, hr1, _, _, hg1⟩ := write_char_spec st c frs st1 evs1 rem1 h1
        obtain ⟨hw2, hr2, hg2⟩ := ih st1 rem1 st2 evs2 rem2 h2
        refine ⟨by simp only [List.length_cons]; omega, by rw [hr2, hr1], ?_⟩
        intro prev
        rw [hg1 prev evs2]
        exact hg2 none

theorem read_char_spec (st : PL011UartInner) (frs : List Nat) (dr : Nat)
    (st1 : PL011UartInner) (c : Char) (evs : List Event) (rem : List Nat)
    (h : read_char st frs dr = some (st1, c, evs, rem)) :
    st1.chars_read = st.chars_read + 1 ∧
    st1.chars_written = st.chars_written ∧
    c = (if drByteChar dr = '\r' then '\n' else drByteChar dr) ∧
    Event.readDR dr ∈ evs ∧
    ∀ prev l, guardedAux isReadDR rxfeClear prev (evs ++ l) =
      guardedAux isReadDR rxfeClear none l := by
  rw [read_char] at h
  cases hp : pollRxfe frs with
  | none => rw [hp] at h; cases h
  | some pr =>
    obtain ⟨pevs, prem⟩ := pr
    rw [hp] at h
    simp only [Option.some_inj, Prod.mk.injEq] at h
    obtain ⟨hst, hc, hevs, _⟩ := h
    obtain ⟨f, hf, hall⟩ := pollWhile_guard rxfeSet frs pevs prem hp
    subst hst
    subst hevs
    refine ⟨rfl, rfl, hc.symm, by simp, ?_⟩
    intro prev l
    rw [List.append_assoc, List.singleton_append,
      hall isReadDR rxfeClear (fun v => rfl) prev (Event.readDR dr :: l),
      guardedAux_cons]
    simp [isReadDR, rxfeClear, hf]

theorem readChars_spec (inputs : List (List Nat × Nat)) :
    ∀ (st st' : PL011UartInner) (outs : List Char) (evs : List Event),
    readChars st inputs = some (st', outs, evs) →
    st'.chars_read = st.chars_read + inputs.length ∧
    st'.chars_written = st.chars_written ∧
    outs = inputs.map
      (fun p => if drByteChar p.2 = '\r' then '\n' else drByteChar p.2) ∧
    ∀ prev, guardedAux isReadDR rxfeClear prev evs = true := by
  induction inputs with
  | nil =>
    intro st st' outs evs h
    simp only [readChars, Option.some_inj, Prod.mk.injEq] at h
    obtain ⟨h1, h2, h3⟩ := h
    subst h1
    subst h2
    subst h3
    exact ⟨rfl, rfl, rfl, fun prev => rfl⟩
  | cons p rest ih =>
    intro st st' outs evs h
    obtain ⟨frs, dr⟩ := p
    rw [readChars] at h
    cases h1 : read_char st frs dr with
    | none => simp [h1] at h
    | some r1 =>
      obtain ⟨st1, c, evs1, rem1⟩ := r1
      simp only [h1] at h
      cases h2 : readChars st1 rest with
      | none => simp [h2] at h
      | some r2 =>
        obtain ⟨st2, cs2, evs2⟩ := r2
        simp only [h2] at h
        simp only [Option.some_inj, Prod.mk.injEq] at h
        obtain ⟨hst, houts, hevs⟩ := h
        subst hst
        subst houts
        subst hevs
        obtain ⟨hr1, hw1, hc1, _, hg1⟩ := read_char_spec st frs dr st1 c evs1 rem1 h1
        obtain ⟨hr2, hw2, houts2, hg2⟩ := ih st1 st2 cs2 evs2 h2
        refine ⟨by simp only [List.length_cons]; omega, by rw [hw2, hw1], ?_, ?_⟩
        · simp only [List.map_cons]
          rw [← hc1, ← houts2]
        · intro prev
          rw [hg1 prev evs2]
          exact hg2 none

theorem init_regs (st : PL011UartInner) :
    ((st.init).1).regs =
      { DR := st.regs.DR, IBRD := 13, FBRD := 2, LCRH := 112, CR := 769,
        ICR := 0 } := rfl

/-! ## Claims -/

/-- C1: for every sequence of N `write_char` calls from a freshly
initialized driver, `chars_written` equals N afterwards, and every
store to the Data Register is immediately preceded by a Flag Register
read that observed the transmit-FIFO-full bit clear (the busy-wait
exits before the store). -/
theorem uart_write_counter_and_fifo_guard (base : Nat) (r0 : UartRegs)
    (cs : List Char) (frs : List Nat) (st' : PL011UartInner) (evs : List Event)
    (rem : List Nat)
    (h : writeChars (PL011UartInner.new base r0) cs frs = some (st', evs, rem)) :
    st'.chars_written = cs.length ∧ GuardedAt isWriteDR txffClear evs := by
  obtain ⟨hw, _, hg⟩ :=
    writeChars_spec cs (PL011UartInner.new base r0) frs st' evs rem h
  refine ⟨?_, guardedAux_GuardedAt _ _ _ (hg none)⟩
  simpa [PL011UartInner.new] using hw

theorem uart_write_counter_and_fifo_guard_witness :
    ∃ st' evs rem,
      writeChars (PL011UartInner.new 0 uartRegs0) ['A', 'B'] [32, 0, 0] =
        some (st', evs, rem) ∧
      st'.chars_written = 2 ∧ GuardedAt isWriteDR txffClear evs := by
  have h : writeChars (PL011UartInner.new 0 uartRegs0) ['A', 'B'] [32, 0, 0] =
      some (⟨0, ⟨66, 0, 0, 0, 0, 0⟩, 2, 0⟩,
        [Event.readFR 32, Event.readFR 0, Event.writeDR 65,
         Event.readFR 0, Event.writeDR 66], []) := by decide
  exact ⟨_, _, _, h,
    (uart_write_counter_and_fifo_guard 0 uartRegs0 _ _ _ _ _ h).1,
    (uart_write_counter_and_fifo_guard 0 uartRegs0 _ _ _ _ _ h).2⟩

/-- C2: `init` performs exactly this register-write sequence in this
order: Control Register set to 0 (device disabled), Interrupt Clear
write clearing all pending interrupt bits, integer baud divisor 13,
fractional baud divisor 2, Line Control selecting 8-bit words (WLEN
bits 5-6 = 0b11) with FIFOs enabled (bit 4), and last a single Control
Register write with receive enable (bit 9), transmit enable (bit 8) and
UART enable (bit 0) all set. -/
theorem uart_init_write_sequence (st : PL011UartInner) :
    (st.init).2 =
      [ Event.writeCR 0, Event.writeICR 0, Event.writeIBRD 13,
        Event.writeFBRD 2, Event.writeLCRH 112, Event.writeCR 769 ] ∧
    (112 >>> 5) % 4 = 0b11 ∧ Nat.testBit 112 4 = true ∧
    Nat.testBit 769 9 = true ∧ Nat.testBit 769 8 = true ∧
    Nat.testBit 769 0 = true := by
  exact ⟨rfl, by decide, by decide, by decide, by decide, by decide⟩

/-- C6: running `init` twice gives exactly the state of running it
once, and the resulting configuration is the same fixed one from any
starting state: integer divisor 13, fractional divisor 2, 8-bit word
length, FIFO enable bit set, and receive/transmit/UART enable bits all
set — independent of prior register or counter state. -/
theorem uart_init_idempotent (st : PL011UartInner) :
    ((st.init).1.init).1 = (st.init).1 ∧
    ((st.init).1).regs.IBRD = 13 ∧ ((st.init).1).regs.FBRD = 2 ∧
    ((((st.init).1).regs.LCRH >>> 5) % 4 = 0b11) ∧
    Nat.testBit ((st.init).1).regs.LCRH 4 = true ∧
    Nat.testBit ((st.init).1).regs.CR 9 = true ∧
    Nat.testBit ((st.init).1).regs.CR 8 = true ∧
    Nat.testBit ((st.init).1).regs.CR 0 = true := by
  have h := init_regs st
  refine ⟨rfl, ?_, ?_, ?_, ?_, ?_, ?_, ?_⟩ <;> rw [h] <;> simp <;> decide

/-- C5: a core whose identifier differs from the boot-core identifier
never sets the stack pointer and never reaches the runtime bootstrap —
it parks in the event-wait loop; the boot core sets the stack pointer
to the configured stack start and transfers control to `runtime_init`. -/
theorem boot_core_gating (bootCoreId stackStart coreId : Nat)
    (h : coreId ≠ bootCoreId) :
    start bootCoreId stackStart coreId = BootAction.park ∧
    start bootCoreId stackStart bootCoreId = BootAction.bootCore stackStart := by
  constructor
  · rw [start, if_neg (fun heq => h heq.symm)]
  · rw [start, if_pos rfl]

theorem boot_core_gating_witness :
    start 0 0x80000 1 = BootAction.park ∧
    start 0 0x80000 0 = BootAction.bootCore 0x80000 :=
  boot_core_gating 0 0x80000 1 (by decide)

/-- C7: the runtime bootstrap zeroes exactly the half-open bss range
and leaves every cell outside it untouched, then transfers control to
kernel initialization.  (`memory::zero_volatile` is modelled from the
spec; `memory.rs` is not among the provided sources.) -/
theorem runtime_init_zero_bss_frame (bssStart bssEnd : Nat)
    (mem : Nat → Nat) (a : Nat) :
    (bssStart ≤ a ∧ a < bssEnd → (runtime_init bssStart bssEnd mem).1 a = 0) ∧
    (¬(bssStart ≤ a ∧ a < bssEnd) →
      (runtime_init bssStart bssEnd mem).1 a = mem a) ∧
    (runtime_init bssStart bssEnd mem).2 = NextStage.toKernelInit := by
  refine ⟨fun h => ?_, fun h => ?_, rfl⟩
  · simp [runtime_init, zero_bss, zero_volatile, h]
  · simp [runtime_init, zero_bss, zero_volatile, h]

theorem runtime_init_zero_bss_frame_witness :
    (runtime_init 0x1000 0x1020 (fun _ => 0xAB)).1 0x1008 = 0 ∧
    (runtime_init 0x1000 0x1020 (fun _ => 0xAB)).1 0x2000 = 0xAB :=
  ⟨(runtime_init_zero_bss_frame 0x1000 0x1020 (fun _ => 0xAB) 0x1008).1
      (by decide),
   (runtime_init_zero_bss_frame 0x1000 0x1020 (fun _ => 0xAB) 0x2000).2.1
      (by decide)⟩

/-- C3: if any driver's `init` in the table fails, `kernel_init`
panics, the emitted fatal message contains the failing driver's
compatible name, and `post_device_driver_init` never runs — the loop
short-circuits at the first failing driver. -/
theorem driver_init_failure_short_circuits (ds : List Driver)
    (h : ∃ d ∈ ds, d.initOk = false) :
    ∃ d, firstFailure ds = some d ∧ d ∈ ds ∧ d.initOk = false ∧
      (∃ a b, kernel_init ds = KernelOutcome.panicked (a ++ d.compatible ++ b)) ∧
      kernel_init ds ≠ KernelOutcome.postInitRan := by
  induction ds with
  | nil => simp at h
  | cons d0 ds ih =>
    by_cases h0 : d0.initOk
    · have h' : ∃ d ∈ ds, d.initOk = false := by
        obtain ⟨d, hd, hfail⟩ := h
        rcases List.mem_cons.mp hd with heq | hmem
        · subst heq
          rw [h0] at hfail
          cases hfail
        · exact ⟨d, hmem, hfail⟩
      obtain ⟨d, h1, h2, h3, ⟨a, b, h4⟩, h5⟩ := ih h'
      refine ⟨d, ?_, List.mem_cons_of_mem _ h2, h3, ⟨a, b, ?_⟩, ?_⟩
      · simpa [firstFailure, h0] using h1
      · simpa [kernel_init, h0] using h4
      · simpa [kernel_init, h0] using h5
    · have hfail : d0.initOk = false := by simpa using h0
      refine ⟨d0, ?_, List.mem_cons_self d0 ds, hfail,
        ⟨"\nFatal error: Error loading driver: ", "\n", ?_⟩, ?_⟩
      · simp [firstFailure, h0]
      · have hs : "\nFatal error: " ++ ("Error loading driver: " ++ d0.compatible) =
            "\nFatal error: Error loading driver: " ++ d0.compatible := by
          rw [← String.append_assoc]
          rfl
        have hk : kernel_init (d0 :: ds) =
            KernelOutcome.panicked
              (panicMessage ("Error loading driver: " ++ d0.compatible)) := by
          simp [kernel_init, hfail]
        rw [hk]
        unfold panicMessage
        rw [hs]
      · simp [kernel_init, h0]

theorem driver_init_failure_short_circuits_witness :
    (∃ d ∈ [Driver.mk "X" false], d.initOk = false) ∧
    kernel_init [Driver.mk "X" false] ≠ KernelOutcome.postInitRan := by
  have h : ∃ d ∈ [Driver.mk "X" false], d.initOk = false :=
    ⟨Driver.mk "X" false, List.mem_singleton.mpr rfl, rfl⟩
  obtain ⟨d, _, _, _, _, h5⟩ :=
    driver_init_failure_short_circuits [Driver.mk "X" false] h
  exact ⟨h, h5⟩

/-- C4: for every sequence of N `read_char` calls from a freshly
initialized driver, `chars_read` equals N afterwards; a Data Register
byte equal to carriage return is returned as newline and every other
byte is returned unchanged; and every Data Register read is immediately
preceded by a Flag Register read that observed the receive-FIFO-empty
bit clear. -/
theorem uart_read_counter_and_translation (base : Nat) (r0 : UartRegs)
    (inputs : List (List Nat × Nat)) (st' : PL011UartInner) (outs : List Char)
    (evs : List Event)
    (h : readChars (PL011UartInner.new base r0) inputs = some (st', outs, evs)) :
    st'.chars_read = inputs.length ∧
    outs = inputs.map
      (fun p => if drByteChar p.2 = '\r' then '\n' else drByteChar p.2) ∧
    GuardedAt isReadDR rxfeClear evs := by
  obtain ⟨hr, _, houts, hg⟩ :=
    readChars_spec inputs (PL011UartInner.new base r0) st' outs evs h
  exact ⟨by simpa [PL011UartInner.new] using hr, houts,
    guardedAux_GuardedAt _ _ _ (hg none)⟩

theorem uart_read_counter_and_translation_witness :
    ∃ st' outs evs,
      readChars (PL011UartInner.new 0 uartRegs0) [([16, 0], 13), ([0], 65)] =
        some (st', outs, evs) ∧
      st'.chars_read = 2 ∧ outs = ['\n', 'A'] ∧
      GuardedAt isReadDR rxfeClear evs := by
  have h : readChars (PL011UartInner.new 0 uartRegs0) [([16, 0], 13), ([0], 65)] =
      some (⟨0, uartRegs0, 0, 2⟩, ['\n', 'A'],
        [Event.readFR 16, Event.readFR 0, Event.readDR 13,
         Event.readFR 0, Event.readDR 65]) := by decide
  obtain ⟨h1, _, h3⟩ :=
    uart_read_counter_and_translation 0 uartRegs0 _ _ _ _ h
  exact ⟨_, _, _, h, h1, rfl, h3⟩

/-- C8: the register block layout is bit-exact as specified — register
byte offsets, bit field positions and widths — and every memory-mapped
access any operation performs targets a declared register, never a
reserved byte range. -/
theorem register_block_layout_exact :
    registerBlock.map (fun r => (r.name, r.offset)) =
      [("DR", 0x00), ("FR", 0x18), ("IBRD", 0x24), ("FBRD", 0x28),
       ("LCRH", 0x2c), ("CR", 0x30), ("ICR", 0x44)] ∧
    FR.TXFE = BitField.mk 7 1 ∧ FR.TXFF = BitField.mk 5 1 ∧
    FR.RXFE = BitField.mk 4 1 ∧ IBRD.IBRD = BitField.mk 0 16 ∧
    FBRD.FBRD = BitField.mk 0 6 ∧ LCRH.WLEN = BitField.mk 5 2 ∧
    LCRH.FEN = BitField.mk 4 1 ∧ CR.RXE = BitField.mk 9 1 ∧
    CR.TXE = BitField.mk 8 1 ∧ CR.UARTEN = BitField.mk 0 1 ∧
    ICR.ALL = BitField.mk 0 11 ∧
    ∀ e : Event, eventOffset e ∈ registerBlock.map RegField.offset ∧
      reservedRanges.all (fun p => !touches (eventOffset e) p.1 p.2) = true := by
  refine ⟨by decide, rfl, rfl, rfl, rfl, rfl, rfl, rfl, rfl, rfl, rfl, rfl, ?_⟩
  intro e
  cases e <;> refine ⟨?_, ?_⟩ <;> simp only [eventOffset] <;> decide

/-- C9 as stated is false: `write_char` stores the full code point
`c as u32`, so a character above U+00FF stores a value above 0xFF.
Writing the euro sign stores 8364 = 0x20AC to the Data Register. -/
theorem uart_write_char_low_byte_counterexample :
    ∃ st' evs rem,
      (PL011UartInner.new 0 uartRegs0).write_char '€' [0] =
        some (st', evs, rem) ∧
      st'.regs.DR = 8364 ∧ Event.writeDR 8364 ∈ evs ∧ ¬(8364 ≤ 0xFF) := by
  refine ⟨⟨0, ⟨8364, 0, 0, 0, 0, 0⟩, 1, 0⟩,
    [Event.readFR 0, Event.writeDR 8364], [], by decide, rfl, ?_, by decide⟩
  simp

/-- C9 amended: the 32-bit value stored to the Data Register is exactly
the character's code point (untruncated); it lies within the low byte
whenever the code point is at most 0xFF (in particular for every ASCII
character). -/
theorem uart_write_char_stores_code_point (st : PL011UartInner) (c : Char)
    (frs : List Nat) (st1 : PL011UartInner) (evs : List Event) (rem : List Nat)
    (h : st.write_char c frs = some (st1, evs, rem)) :
    st1.regs.DR = c.toNat ∧ Event.writeDR c.toNat ∈ evs ∧
    (c.toNat ≤ 0xFF → st1.regs.DR ≤ 0xFF) := by
  obtain ⟨_, _, hdr, hmem, _⟩ := write_char_spec st c frs st1 evs rem h
  exact ⟨hdr, hmem, fun hb => hdr ▸ hb⟩

theorem uart_write_char_stores_code_point_witness :
    ∃ st1 evs rem,
      (PL011UartInner.new 0 uartRegs0).write_char 'A' [0] =
        some (st1, evs, rem) ∧
      st1.regs.DR = Char.toNat 'A' ∧ st1.regs.DR ≤ 0xFF := by
  have h : (PL011UartInner.new 0 uartRegs0).write_char 'A' [0] =
      some (⟨0, ⟨65, 0, 0, 0, 0, 0⟩, 1, 0⟩,
        [Event.readFR 0, Event.writeDR 65], []) := by decide
  obtain ⟨h1, _, h3⟩ := uart_write_char_stores_code_point _ _ _ _ _ _ h
  exact ⟨_, _, _, h, h1, h3 (by decide)⟩

/-- C10: `write_str` returns `Ok(())` whenever it completes, for every
input string, so `write_fmt` over it reports no underlying transmit
error and the `unwrap` in `_panic_print` cannot itself panic. -/
theorem write_str_always_ok (st : PL011UartInner) (s : String)
    (frs : List Nat) (st' : PL011UartInner) (r : FmtResult) (evs : List Event)
    (rem : List Nat) (h : write_str st s frs = some (st', r, evs, rem)) :
    r = FmtResult.ok ∧ unwrapFmt r = some () := by
  rw [write_str] at h
  cases hw : writeChars st s.data frs with
  | none => simp [hw] at h
  | some r1 =>
    obtain ⟨st2, evs2, rem2⟩ := r1
    simp only [hw, Option.some_inj, Prod.mk.injEq] at h
    obtain ⟨_, hr, _⟩ := h
    subst hr
    exact ⟨rfl, rfl⟩

theorem write_str_always_ok_witness :
    ∃ st' r evs rem,
      write_str (PL011UartInner.new 0 uartRegs0) "hi" [0, 0] =
        some (st', r, evs, rem) ∧
      r = FmtResult.ok ∧ unwrapFmt r = some () := by
  have h : write_str (PL011UartInner.new 0 uartRegs0) "hi" [0, 0] =
      some (⟨0, ⟨105, 0, 0, 0, 0, 0⟩, 2, 0⟩, FmtResult.ok,
        [Event.readFR 0, Event.writeDR 104, Event.readFR 0, Event.writeDR 105],
        []) := by decide
  obtain ⟨h1, h2⟩ := write_str_always_ok _ _ _ _ _ _ _ h
  exact ⟨_, _, _, _, h, h1, h2⟩

end OldQuantum
